import Mathlib

/-!
Verification of the BirdHub eBird life-list importer (fetch-ebird.js).

JavaScript strings are modelled as lists of characters; the functions
parseEbirdDate, parseCSV (its row tokenizer, field mapper and sort) and
getExistingProfile, together with the profile merge performed in
fetchEbirdLifeList, are embedded below as executable Lean functions.
-/

namespace BirdHub

/-- JavaScript strings, modelled as lists of characters. -/
abbrev JSStr := List Char

/-- The whitespace class of JavaScript String.trim: the WhiteSpace and
LineTerminator code points of ECMAScript (tab, LF, VT, FF, CR, space,
NBSP, Ogham space mark, the U+2000 to U+200A range, LS, PS, narrow
no-break space, medium mathematical space, ideographic space, and the
U+FEFF byte order mark). -/
def isJsSpace (c : Char) : Bool :=
  c.toNat = 9 || c.toNat = 10 || c.toNat = 11 || c.toNat = 12 ||
  c.toNat = 13 || c.toNat = 32 || c.toNat = 160 || c.toNat = 5760 ||
  (8192 ≤ c.toNat && c.toNat ≤ 8202) || c.toNat = 8232 || c.toNat = 8233 ||
  c.toNat = 8239 || c.toNat = 8287 || c.toNat = 12288 || c.toNat = 65279

/-- Models JavaScript String.trim: remove leading and trailing whitespace. -/
def trim (s : JSStr) : JSStr :=
  ((s.dropWhile isJsSpace).reverse.dropWhile isJsSpace).reverse

/-- Models JavaScript String.split(sep) for a one-character separator:
split on every occurrence, keeping empty pieces, and the empty string
splits to one empty piece. -/
def splitOnChar (sep : Char) : JSStr → List JSStr
  | [] => [[]]
  | c :: rest =>
    let r := splitOnChar sep rest
    if c = sep then [] :: r
    else (c :: r.headD []) :: r.tail

/-- Models the JavaScript call day.padStart(2, "0"): strings of length at
least 2 are returned unchanged, shorter ones are left-padded with zeros. -/
def padStart2 (s : JSStr) : JSStr :=
  if s.length ≥ 2 then s else List.replicate (2 - s.length) '0' ++ s

/-- The month table of parseEbirdDate, in source order. -/
def months : List (JSStr × JSStr) :=
  [("Jan".data, "01".data), ("Feb".data, "02".data), ("Mar".data, "03".data),
   ("Apr".data, "04".data), ("May".data, "05".data), ("Jun".data, "06".data),
   ("Jul".data, "07".data), ("Aug".data, "08".data), ("Sep".data, "09".data),
   ("Oct".data, "10".data), ("Nov".data, "11".data), ("Dec".data, "12".data)]

/-- The property names a plain object literal inherits from
Object.prototype (V8): reading months[key] for one of these yields the
inherited value rather than undefined, and every such value is truthy,
so the !month guard does not fire on it. -/
def objectProtoKeys : List JSStr :=
  ["constructor".data, "hasOwnProperty".data, "isPrototypeOf".data,
   "propertyIsEnumerable".data, "toLocaleString".data, "toString".data,
   "valueOf".data, "__proto__".data, "__defineGetter__".data,
   "__defineSetter__".data, "__lookupGetter__".data, "__lookupSetter__".data]

/-- The string an inherited Object.prototype value interpolates to in the
template literal building the result: Object.prototype itself for the
__proto__ accessor, and the native-function source text for the methods. -/
def protoString (key : JSStr) : JSStr :=
  if key = "__proto__".data then "[object Object]".data
  else "function ".data ++ key ++ "() \x7b [native code] \x7d".data

/-- Models the JavaScript property read months[key] together with the
truthiness of its result: an own entry gives the month number; a key
inherited from Object.prototype gives that truthy inherited value,
rendered as the string it interpolates to; any other key reads undefined
(none), which the following !month guard turns into null. -/
def monthLookup (key : JSStr) : Option JSStr :=
  match months.lookup key with
  | some v => some v
  | none => if key ∈ objectProtoKeys then some (protoString key) else none

/-- Embedding of parseEbirdDate from fetch-ebird.js: trim, split on the
space character, require exactly 3 parts, zero-pad the day, look up the
month, and build year-month-day; a missing month yields null (none). -/
def parseEbirdDate (dateStr : JSStr) : Option JSStr :=
  let parts := splitOnChar ' ' (trim dateStr)
  if parts.length ≠ 3 then none
  else
    let day := padStart2 (parts.getD 0 [])
    let year := parts.getD 2 []
    match monthLookup (parts.getD 1 []) with
    | none => none
    | some month => some (year ++ '-' :: month ++ '-' :: day)

/-- The character loop of parseCSV's row tokenizer: cols and current are
the accumulated columns and the field being built, inQuotes is the quote
toggle; a quote only flips the toggle, a comma outside quotes pushes the
trimmed field, every other character is appended. -/
def tokenizeGo (cols : List JSStr) (current : JSStr) (inQuotes : Bool) :
    JSStr → List JSStr
  | [] => cols ++ [trim current]
  | c :: cs =>
    if c = '"' then tokenizeGo cols current (!inQuotes) cs
    else if c = ',' ∧ inQuotes = false then
      tokenizeGo (cols ++ [trim current]) [] inQuotes cs
    else tokenizeGo cols (current ++ [c]) inQuotes cs

/-- The row tokenizer of parseCSV, started on an empty accumulator outside
quotes. -/
def tokenize (line : JSStr) : List JSStr := tokenizeGo [] [] false line

/-- Models the JavaScript call s.replace(new RegExp quote, "") used on the
location column: delete every double-quote character. -/
def stripQuotes (s : JSStr) : JSStr := s.filter (fun c => c ≠ '"')

/-- One observation record as produced by parseCSV. -/
structure Obs where
  date : JSStr
  sciName : JSStr
  common : JSStr
  location : JSStr
  region : JSStr
  deriving DecidableEq, Repr

/-- One iteration of parseCSV's line loop: trim the line, skip it when
empty, tokenize, require at least 9 columns, normalize the date of column
8 and drop the row when it is unparseable, else build the record from
columns 3, 4, 6 (quote-stripped) and 7. -/
def lineToObs (rawLine : JSStr) : Option Obs :=
  let line := trim rawLine
  if line = [] then none
  else
    let cols := tokenize line
    if cols.length ≥ 9 then
      match parseEbirdDate (cols.getD 8 []) with
      | none => none
      | some d =>
        some { date := d, sciName := cols.getD 4 [], common := cols.getD 3 [],
               location := stripQuotes (cols.getD 6 []), region := cols.getD 7 [] }
    else none

/-- The observations array parseCSV has built just before sorting: the
line loop starts at index 1, so the first (header) line is discarded. -/
def observationsOfLines (lines : List JSStr) : List Obs :=
  (lines.drop 1).filterMap lineToObs

/-- The packed calendar-date key 512*year + 32*month + day.  Since month
is at most 12 and day at most 31, this packing is strictly monotone with
respect to the chronological (year, month, day) order, hence ordered
exactly like the time value new Date(s) denotes. -/
def packDate (y m d : Nat) : Nat := 512 * y + 32 * m + d

/-- Leap-year rule of the Gregorian calendar. -/
def isLeapYear (y : Nat) : Bool := (y % 4 = 0 ∧ y % 100 ≠ 0) ∨ y % 400 = 0

/-- Number of days in a month of a given year. -/
def daysInMonth (y m : Nat) : Nat :=
  if m = 2 then (if isLeapYear y then 29 else 28)
  else if m = 4 ∨ m = 6 ∨ m = 9 ∨ m = 11 then 30 else 31

/-- An ASCII decimal digit (code points 48 to 57). -/
def isAsciiDigit (c : Char) : Bool := 48 ≤ c.toNat && c.toNat ≤ 57

/-- Models the time value of the JavaScript expression new Date(s) on the
strings this program sorts, up to the strictly monotone reindexing
packDate: a string of the exact shape YYYY-MM-DD denoting a valid
calendar date is parsed as an ISO date (some key, ordered chronologically);
any other string - including YYYY-MM-DD shapes whose month or day is out
of range for the calendar, such as 2024-02-30 - is an Invalid Date, whose
time value is NaN (none).  Strings of other shapes that an engine's
parser may still accept (such as ones carrying a time component) are
conservatively mapped to NaN as well: the sorting theorem below is stated
on the domain where every date has the exact valid YYYY-MM-DD shape, and
there the model comparator agrees with the engine's. -/
def jsDateKey (s : JSStr) : Option Nat :=
  match s with
  | [y1, y2, y3, y4, h1, m1, m2, h2, d1, d2] =>
    if isAsciiDigit y1 ∧ isAsciiDigit y2 ∧ isAsciiDigit y3 ∧ isAsciiDigit y4 ∧
       h1 = '-' ∧ isAsciiDigit m1 ∧ isAsciiDigit m2 ∧ h2 = '-' ∧
       isAsciiDigit d1 ∧ isAsciiDigit d2 then
      let y := 1000 * (y1.toNat - 48) + 100 * (y2.toNat - 48) +
               10 * (y3.toNat - 48) + (y4.toNat - 48)
      let m := 10 * (m1.toNat - 48) + (m2.toNat - 48)
      let d := 10 * (d1.toNat - 48) + (d2.toNat - 48)
      if 1 ≤ m ∧ m ≤ 12 ∧ 1 ≤ d ∧ d ≤ daysInMonth y m then
        some (packDate y m d)
      else none
    else none
  | _ => none

/-- The sort comparator of parseCSV, (a, b) mapsto new Date(a.date) minus
new Date(b.date), as the ECMAScript SortCompare operation consumes it: a
NaN result (either date invalid) is treated as 0. -/
def jsDateCmp (a b : Obs) : Int :=
  match jsDateKey a.date, jsDateKey b.date with
  | some x, some y => (x : Int) - (y : Int)
  | _, _ => 0

/-- The before-or-tied relation induced by the comparator: a may precede b
exactly when the comparator does not order b strictly first. -/
def sortLe (a b : Obs) : Bool := jsDateCmp a b ≤ 0

/-- Stable insertion of x into a sorted list: x goes in front of the first
element it is before-or-tied with, hence after every earlier-inserted tie. -/
def insertLe {α : Type} (le : α → α → Bool) (x : α) : List α → List α
  | [] => [x]
  | y :: ys => if le x y then x :: y :: ys else y :: insertLe le x ys

/-- Models Array.prototype.sort with a comparator.  ECMAScript requires a
stable sort, and whenever the comparator is a consistent comparison
function on the array, sortedness plus stability determine the output
uniquely, so this stable insertion sort computes exactly the engine's
result.  When the comparator is inconsistent (here: a NaN result treated
as 0 ties an invalid-date record with everything) ECMAScript makes the
order implementation-defined, and this definition fixes one stable
choice; theorems about sorting are therefore stated only on inputs whose
comparator is consistent, while the concrete two-element counterexample
below is one every engine reproduces (a single comparison returning 0
leaves a two-element array unchanged). -/
def sortByLe {α : Type} (le : α → α → Bool) : List α → List α
  | [] => []
  | x :: xs => insertLe le x (sortByLe le xs)

/-- parseCSV applied to an already-split line list: build the observation
array and sort it with the date comparator. -/
def parseCSVLines (lines : List JSStr) : List Obs :=
  sortByLe sortLe (observationsOfLines lines)

/-- Embedding of parseCSV from fetch-ebird.js: split the content on
newlines, run the line loop from index 1, and sort by date. -/
def parseCSV (csvContent : JSStr) : List Obs :=
  parseCSVLines (splitOnChar '\n' csvContent)

/-- The observation list parseCSV has built from raw content before
sorting (input row order). -/
def rawObservations (csvContent : JSStr) : List Obs :=
  observationsOfLines (splitOnChar '\n' csvContent)

/-- JavaScript objects with values in V, as ordered own-property lists
(keys unique in any object JavaScript can build). -/
abbrev JSObj (V : Type) := List (JSStr × V)

/-- Reading a property: the value at the first matching key, undefined
(none) when absent. -/
def getProp {V : Type} (props : JSObj V) (key : JSStr) : Option V :=
  props.lookup key

/-- Models the object literal spread-and-set, an object built as all own
properties of props followed by the binding key : v — an existing key
keeps its position with the new value, a fresh key is appended. -/
def setProp {V : Type} (props : JSObj V) (key : JSStr) (v : V) : JSObj V :=
  if props.any (fun p => p.1 = key) then
    props.map (fun p => (p.1, if p.1 = key then v else p.2))
  else props ++ [(key, v)]

/-- The profile merge performed in fetchEbirdLifeList when building
dataJson: spread the existing profile and set lastSync to the current
timestamp (passed in as nowIso, since the clock is external). -/
def mergeProfile {V : Type} (existingProfile : JSObj V) (nowIso : V) : JSObj V :=
  setProp existingProfile "lastSync".data nowIso

/-- JavaScript values as far as getExistingProfile inspects them. -/
inductive JsVal : Type
  | vnull : JsVal
  | vbool : Bool → JsVal
  | vnum : Int → JsVal
  | vstr : JSStr → JsVal
  | varr : List JsVal → JsVal
  | vobj : List (JSStr × JsVal) → JsVal

/-- JavaScript truthiness for the values above (NaN does not arise:
JSON.parse never produces it). -/
def truthy : JsVal → Bool
  | .vnull => false
  | .vbool b => b
  | .vnum n => n ≠ 0
  | .vstr s => s ≠ []
  | .varr _ => true
  | .vobj _ => true

/-- Property access existing.profile on a parsed JSON value: only objects
have properties, anything else gives undefined (none). -/
def jsGetField (v : JsVal) (key : JSStr) : Option JsVal :=
  match v with
  | .vobj props => props.lookup key
  | _ => none

/-- Embedding of getExistingProfile from fetch-ebird.js.  The two external
effects are passed in: fileContent is the result of reading data.json
(none when the file is missing or unreadable, which throws inside the
try), and jsonParse models the builtin JSON.parse (none when it throws on
malformed input).  Either throw lands in the catch, which returns the
empty object; otherwise the result is existing.profile when that is
truthy, and the empty object when it is absent or falsy. -/
def getExistingProfile (jsonParse : JSStr → Option JsVal)
    (fileContent : Option JSStr) : JsVal :=
  match fileContent with
  | none => .vobj []
  | some s =>
    match jsonParse s with
    | none => .vobj []
    | some existing =>
      match jsGetField existing "profile".data with
      | some p => if truthy p then p else .vobj []
      | none => .vobj []

/-- Lexical comparison of two characters: code-point order. -/
def charCmp (a b : Char) : Ordering := compare a.toNat b.toNat

/-- Lexicographic comparison of strings, character by character; a proper
initial segment of the other string compares smaller. -/
def lexCmp : JSStr → JSStr → Ordering
  | [], [] => .eq
  | [], _ :: _ => .lt
  | _ :: _, [] => .gt
  | a :: as, b :: bs => (charCmp a b).then (lexCmp as bs)

/-- Lexicographic less-or-equal on strings. -/
def lexLe (a b : JSStr) : Bool := lexCmp a b ≠ .gt

/-- The spec's sortedness invariant, as a decidable check: every adjacent
pair of observations is in ascending lexical date order. -/
def sortedByDate : List Obs → Bool
  | [] => true
  | [_] => true
  | a :: b :: rest => lexLe a.date b.date && sortedByDate (b :: rest)

/-- Splitting a string into its whitespace-separated parts: maximal runs
of non-whitespace characters (used to state the spec's token-count
condition, which speaks of whitespace, not of the space character). -/
def wsTokens (s : JSStr) : List JSStr :=
  (splitOnChar ' ' ((s.map (fun c => if isJsSpace c then ' ' else c)))).filter
    (fun t => t ≠ [])

example : wsTokens "a\tb Jan 2024".data =
    ["a".data, "b".data, "Jan".data, "2024".data] := by decide

example : parseEbirdDate "a\tb Jan 2024".data = some "2024-01-a\tb".data := by
  decide

example : parseEbirdDate "x Jan 20244".data = some "20244-01-0x".data := by
  decide

example :
    (parseCSV ("h\n1,a,b,Bird A,Sci A,,Loc,US,30 Feb 2024\n2,a,b,Bird B,Sci B,,Loc,US,1 Jan 2023".data)).map Obs.date =
      ["2024-02-30".data, "2023-01-01".data] := by decide

example :
    sortedByDate (parseCSV ("h\n1,a,b,Bird A,Sci A,,Loc,US,30 Feb 2024\n2,a,b,Bird B,Sci B,,Loc,US,1 Jan 2023".data)) = false := by decide

example : parseEbirdDate "5 Jan 2024".data = some "2024-01-05".data := by decide

example : parseEbirdDate "15 Dec 2023".data = some "2023-12-15".data := by decide

example : parseEbirdDate "2024".data = none := by decide

example : parseEbirdDate "5 Foo 2024".data = none := by decide

example : tokenize "A,\"B, C\",D".data = ["A".data, "B, C".data, "D".data] := by
  decide

section Helpers

lemma lookup_map_setValue {V : Type} (key k : JSStr) (v : V) (h : k ≠ key) :
    ∀ props : JSObj V,
      (props.map (fun p => (p.1, if p.1 = key then v else p.2))).lookup k =
        props.lookup k := by
  intro props
  induction props with
  | nil => rfl
  | cons p ps ih =>
    simp only [List.map_cons, List.lookup]
    cases hkp : (k == p.1) with
    | false => simpa [hkp] using ih
    | true =>
      have hk : k = p.1 := by simpa using hkp
      have hp : ¬p.1 = key := fun hc => h (hk.trans hc)
      simp [hkp, hp]

lemma lookup_append_single {V : Type} (key k : JSStr) (v : V) (h : k ≠ key) :
    ∀ props : JSObj V, (props ++ [(key, v)]).lookup k = props.lookup k := by
  intro props
  induction props with
  | nil =>
    have : (k == key) = false := by simpa using h
    simp [List.lookup, this]
  | cons p ps ih =>
    simp only [List.cons_append, List.lookup]
    cases hkp : (k == p.1) with
    | false => simpa [hkp] using ih
    | true => simp [hkp]

lemma getProp_setProp_ne {V : Type} (props : JSObj V) (key k : JSStr) (v : V)
    (h : k ≠ key) : getProp (setProp props key v) k = getProp props k := by
  unfold setProp getProp
  split
  · exact lookup_map_setValue key k v h props
  · exact lookup_append_single key k v h props

lemma lookup_map_setValue_self {V : Type} (key : JSStr) (v : V) :
    ∀ props : JSObj V, props.any (fun p => p.1 = key) →
      (props.map (fun p => (p.1, if p.1 = key then v else p.2))).lookup key =
        some v := by
  intro props
  induction props with
  | nil => intro hany; simp at hany
  | cons p ps ih =>
    intro hany
    simp only [List.map_cons, List.lookup]
    by_cases hp : p.1 = key
    · have hkp : (key == p.1) = true := by simp [hp]
      simp [hkp, hp]
    · have hkp : (key == p.1) = false := by
        simp only [beq_eq_false_iff_ne, ne_eq]
        exact fun hc => hp hc.symm
      have hps : ps.any (fun p => p.1 = key) := by
        simp only [List.any_cons, Bool.or_eq_true_iff] at hany
        rcases hany with h1 | h1
        · exact absurd (of_decide_eq_true h1) hp
        · exact h1
      simpa [hkp] using ih hps

lemma lookup_append_single_self {V : Type} (key : JSStr) (v : V) :
    ∀ props : JSObj V, ¬props.any (fun p => p.1 = key) →
      (props ++ [(key, v)]).lookup key = some v := by
  intro props
  induction props with
  | nil => intro _; simp [List.lookup]
  | cons p ps ih =>
    intro hany
    simp only [List.any_cons, Bool.or_eq_true_iff, not_or] at hany
    have hp : ¬p.1 = key := fun hc => hany.1 (decide_eq_true hc)
    have hkp : (key == p.1) = false := by
      simp only [beq_eq_false_iff_ne, ne_eq]
      exact fun hc => hp hc.symm
    simp only [List.cons_append, List.lookup, hkp]
    exact ih hany.2

lemma getProp_setProp_self {V : Type} (props : JSObj V) (key : JSStr) (v : V) :
    getProp (setProp props key v) key = some v := by
  unfold setProp getProp
  split
  · next hany => exact lookup_map_setValue_self key v props hany
  · next hany => exact lookup_append_single_self key v props hany

end Helpers

/-- C3: the merge step preserves every pre-existing profile field other
than lastSync unchanged, and overwrites exactly lastSync with the current
timestamp. -/
theorem claim_merge_frame {V : Type} (existingProfile : JSObj V) (nowIso : V)
    (k : JSStr) (hk : k ≠ "lastSync".data) :
    getProp (mergeProfile existingProfile nowIso) k = getProp existingProfile k ∧
    getProp (mergeProfile existingProfile nowIso) "lastSync".data = some nowIso :=
  ⟨getProp_setProp_ne existingProfile "lastSync".data k nowIso hk,
   getProp_setProp_self existingProfile "lastSync".data nowIso⟩

/-- Witness for C3 at a concrete profile carrying a name field and a stale
lastSync. -/
theorem claim_merge_frame_witness :
    getProp (mergeProfile [("name".data, "Jay".data), ("lastSync".data, "old".data)]
      "2024-01-01T00:00:00Z".data) "name".data = some "Jay".data ∧
    getProp (mergeProfile [("name".data, "Jay".data), ("lastSync".data, "old".data)]
      "2024-01-01T00:00:00Z".data) "lastSync".data =
      some "2024-01-01T00:00:00Z".data := by
  have h := claim_merge_frame [("name".data, "Jay".data), ("lastSync".data, "old".data)]
    "2024-01-01T00:00:00Z".data "name".data (by decide)
  exact ⟨h.1.trans (by decide), h.2⟩

/-- C7: when the persisted file is missing or unreadable (the read throws,
modelled as none) or its content is malformed JSON (JSON.parse throws,
modelled as none), getExistingProfile returns the empty object instead of
propagating an error. -/
theorem claim_missing_artifact (jsonParse : JSStr → Option JsVal)
    (fileContent : Option JSStr)
    (h : fileContent = none ∨ ∃ s, fileContent = some s ∧ jsonParse s = none) :
    getExistingProfile jsonParse fileContent = .vobj [] := by
  rcases h with h | ⟨s, hs, hp⟩
  · simp [getExistingProfile, h]
  · simp [getExistingProfile, hs, hp]

/-- Witness for C7: a parser that rejects everything, applied to a present
but malformed file, and the missing-file case. -/
theorem claim_missing_artifact_witness :
    getExistingProfile (fun _ => none) (some "not json".data) = .vobj [] ∧
    getExistingProfile (fun _ => none) none = .vobj [] :=
  ⟨claim_missing_artifact (fun _ => none) (some "not json".data)
     (Or.inr ⟨"not json".data, rfl, rfl⟩),
   claim_missing_artifact (fun _ => none) none (Or.inl rfl)⟩

/-- C10: date normalization validates only the token count and the month
token: whenever the trimmed input splits on single spaces into exactly 3
parts whose middle part is a recognized month, parseEbirdDate succeeds and
returns year-month-paddedDay, with no validation of the day or year
tokens. -/
theorem claim_date_no_validation (s mm : JSStr)
    (h3 : (splitOnChar ' ' (trim s)).length = 3)
    (hm : monthLookup ((splitOnChar ' ' (trim s)).getD 1 []) = some mm) :
    parseEbirdDate s =
      some ((splitOnChar ' ' (trim s)).getD 2 [] ++ '-' :: mm ++ '-' ::
        padStart2 ((splitOnChar ' ' (trim s)).getD 0 [])) := by
  have hlt1 : 1 < (splitOnChar ' ' (trim s)).length := by omega
  have hm' : monthLookup ((splitOnChar ' ' (trim s))[1]) = some mm := by
    rwa [List.getD_eq_getElem _ _ hlt1] at hm
  simp [parseEbirdDate, h3, hm']

/-- Witness for C10 at the claim's example: a non-numeric day and 5-digit
year are passed through unvalidated. -/
theorem claim_date_no_validation_witness :
    parseEbirdDate "x Jan 20244".data = some "20244-01-0x".data := by
  rw [claim_date_no_validation "x Jan 20244".data "01".data (by decide) (by decide)]
  decide

section SplitLemmas

lemma splitOnChar_not_mem {c : Char} : ∀ {s : JSStr}, c ∉ s → splitOnChar c s = [s] := by
  intro s
  induction s with
  | nil => intro _; rfl
  | cons a as ih =>
    intro h
    have ha : ¬a = c := fun hc => h (hc ▸ List.mem_cons_self a as)
    have has : c ∉ as := fun hc => h (List.mem_cons_of_mem a hc)
    simp [splitOnChar, ha, ih has]

lemma splitOnChar_append {c : Char} (rest : JSStr) :
    ∀ {a : JSStr}, c ∉ a → splitOnChar c (a ++ c :: rest) = a :: splitOnChar c rest := by
  intro a
  induction a with
  | nil => intro _; simp [splitOnChar]
  | cons x xs ih =>
    intro h
    have hx : ¬x = c := fun hc => h (hc ▸ List.mem_cons_self x xs)
    have hxs : c ∉ xs := fun hc => h (List.mem_cons_of_mem x hc)
    simp only [List.cons_append, splitOnChar, hx, if_false]
    simp only [List.append_eq, ih hxs, List.headD_cons, List.tail_cons]

lemma splitOnChar_ne_nil (c : Char) : ∀ s : JSStr, splitOnChar c s ≠ [] := by
  intro s
  cases s with
  | nil => simp [splitOnChar]
  | cons a as =>
    simp only [splitOnChar]
    split <;> simp

end SplitLemmas

section TokenizerLemmas

lemma tokenizeGo_no_quote :
    ∀ (l : JSStr) (cols : List JSStr) (cur : JSStr), '"' ∉ l → ',' ∉ cur →
      tokenizeGo cols cur false l = cols ++ (splitOnChar ',' (cur ++ l)).map trim := by
  intro l
  induction l with
  | nil =>
    intro cols cur _ hcur
    simp [tokenizeGo, splitOnChar_not_mem hcur]
  | cons c cs ih =>
    intro cols cur hl hcur
    have hc : ¬c = '"' := fun hq => hl (hq ▸ List.mem_cons_self c cs)
    have hcs : '"' ∉ cs := fun hq => hl (List.mem_cons_of_mem c hq)
    by_cases hcomma : c = ','
    · subst hcomma
      rw [show tokenizeGo cols cur false (',' :: cs) =
            tokenizeGo (cols ++ [trim cur]) [] false cs from by
          simp [tokenizeGo, hc]]
      rw [ih (cols ++ [trim cur]) [] hcs (by simp)]
      rw [splitOnChar_append cs hcur]
      simp
    · simp only [tokenizeGo, hc, if_false]
      rw [if_neg (by intro hcon; exact hcomma hcon.1)]
      rw [ih cols (cur ++ [c]) hcs (by
        intro hmem
        rcases List.mem_append.mp hmem with hm | hm
        · exact hcur hm
        · simp at hm; exact hcomma hm.symm)]
      simp

end TokenizerLemmas

/-- C5: the row tokenizer splits on commas with a double quote toggling an
inside-quotes mode during which commas are literal, trimming each field;
on quote-free lines it is exactly comma-splitting plus trimming, and on
the claim's example the quoted comma is kept inside one field. -/
theorem claim_tokenizer :
    tokenize "A,\"B, C\",D".data = ["A".data, "B, C".data, "D".data] ∧
    ∀ l : JSStr, '"' ∉ l → tokenize l = (splitOnChar ',' l).map trim := by
  constructor
  · decide
  · intro l hl
    simpa [tokenize] using tokenizeGo_no_quote l [] [] hl (by simp)

/-- Witness for C5 on a concrete quote-free line with whitespace around
fields. -/
theorem claim_tokenizer_witness :
    tokenize "a , b,c".data = ["a".data, "b".data, "c".data] := by
  rw [claim_tokenizer.2 "a , b,c".data (by decide)]
  decide

section RowDropLemmas

lemma lineToObs_of_short (row : JSStr) (h : (tokenize (trim row)).length < 9) :
    lineToObs row = none := by
  by_cases he : trim row = []
  · simp [lineToObs, he]
  · have h9 : ¬(tokenize (trim row)).length ≥ 9 := by omega
    simp [lineToObs, he, h9]

lemma lineToObs_of_blank (row : JSStr) (h : trim row = []) :
    lineToObs row = none := by
  simp [lineToObs, h]

lemma parseCSVLines_remove_none (header row : JSStr) (pre post : List JSStr)
    (hnone : lineToObs row = none) :
    parseCSVLines (header :: (pre ++ row :: post)) =
      parseCSVLines (header :: (pre ++ post)) := by
  simp [parseCSVLines, observationsOfLines, List.filterMap_append,
    List.filterMap_cons, hnone]

end RowDropLemmas

/-- C6: every row tokenizing to fewer than 9 columns is dropped silently:
its line yields no observation, and deleting it from the input changes
nothing in parseCSV's output. -/
theorem claim_short_rows_dropped (header row : JSStr) (pre post : List JSStr)
    (h : (tokenize (trim row)).length < 9) :
    lineToObs row = none ∧
    parseCSVLines (header :: (pre ++ row :: post)) =
      parseCSVLines (header :: (pre ++ post)) :=
  ⟨lineToObs_of_short row h,
   parseCSVLines_remove_none header row pre post (lineToObs_of_short row h)⟩

/-- Witness for C6: a two-column row between a header and a well-formed
row contributes nothing. -/
theorem claim_short_rows_dropped_witness :
    lineToObs "too,short".data = none ∧
    parseCSVLines ["h".data, "too,short".data,
        "1,a,b,Bird,Sci,,Loc,US,5 Jan 2024".data] =
      parseCSVLines ["h".data, "1,a,b,Bird,Sci,,Loc,US,5 Jan 2024".data] :=
  claim_short_rows_dropped "h".data "too,short".data []
    ["1,a,b,Bird,Sci,,Loc,US,5 Jan 2024".data] (by decide)

/-- C8: the first line is always discarded as a header (its content is
irrelevant), lines empty after trimming are skipped, and empty or
header-only input yields the empty observation sequence. -/
theorem claim_header_and_blank_lines :
    parseCSV [] = [] ∧
    (∀ h : JSStr, '\n' ∉ h → parseCSV h = []) ∧
    (∀ h₁ h₂ : JSStr, ∀ rest : List JSStr,
      parseCSVLines (h₁ :: rest) = parseCSVLines (h₂ :: rest)) ∧
    (∀ header row : JSStr, ∀ pre post : List JSStr, trim row = [] →
      parseCSVLines (header :: (pre ++ row :: post)) =
        parseCSVLines (header :: (pre ++ post))) := by
  refine ⟨by decide, ?_, ?_, ?_⟩
  · intro h hh
    unfold parseCSV
    rw [splitOnChar_not_mem hh]
    rfl
  · intro h₁ h₂ rest
    rfl
  · intro header row pre post hblank
    exact parseCSVLines_remove_none header row pre post (lineToObs_of_blank row hblank)

/-- Witness for C8 at concrete inputs: header-only content, two different
headers over the same rows, and a whitespace-only line. -/
theorem claim_header_and_blank_lines_witness :
    parseCSV "only a header".data = [] ∧
    parseCSVLines ["h1".data, "r".data] = parseCSVLines ["h2".data, "r".data] ∧
    parseCSVLines ["h".data, "  ".data, "r".data] =
      parseCSVLines ["h".data, "r".data] :=
  ⟨claim_header_and_blank_lines.2.1 "only a header".data (by decide),
   claim_header_and_blank_lines.2.2.1 "h1".data "h2".data ["r".data],
   claim_header_and_blank_lines.2.2.2 "h".data "  ".data [] ["r".data] (by decide)⟩

section MemLemmas

lemma mem_trim {c : Char} {s : JSStr} (h : c ∈ trim s) : c ∈ s := by
  unfold trim at h
  rw [List.mem_reverse] at h
  have h1 := (List.dropWhile_sublist _).subset h
  rw [List.mem_reverse] at h1
  exact (List.dropWhile_sublist _).subset h1

lemma mem_splitOnChar_subset {sep : Char} :
    ∀ {s : JSStr} {t : JSStr}, t ∈ splitOnChar sep s → ∀ {a : Char}, a ∈ t → a ∈ s := by
  intro s
  induction s with
  | nil =>
    intro t ht a ha
    simp [splitOnChar] at ht
    subst ht
    cases ha
  | cons x xs ih =>
    intro t ht a ha
    simp only [splitOnChar] at ht
    by_cases hx : x = sep
    · rw [if_pos hx] at ht
      rcases List.mem_cons.mp ht with h1 | h1
      · subst h1; cases ha
      · exact List.mem_cons_of_mem x (ih h1 ha)
    · rw [if_neg hx] at ht
      rcases List.mem_cons.mp ht with h1 | h1
      · subst h1
        rcases List.mem_cons.mp ha with h2 | h2
        · exact h2 ▸ List.mem_cons_self x xs
        · obtain ⟨r0, rs, hr⟩ : ∃ r0 rs, splitOnChar sep xs = r0 :: rs := by
            cases hsp : splitOnChar sep xs with
            | nil => exact absurd hsp (splitOnChar_ne_nil sep xs)
            | cons r0 rs => exact ⟨r0, rs, rfl⟩
          rw [hr] at h2
          simp only [List.headD_cons] at h2
          exact List.mem_cons_of_mem x (ih (hr ▸ List.mem_cons_self r0 rs) h2)
      · have : t ∈ splitOnChar sep xs := (List.tail_sublist _).subset h1
        exact List.mem_cons_of_mem x (ih this ha)

lemma mem_insertLe {α : Type} (le : α → α → Bool) (x y : α) :
    ∀ l : List α, y ∈ insertLe le x l ↔ y = x ∨ y ∈ l := by
  intro l
  induction l with
  | nil => simp [insertLe]
  | cons z zs ih =>
    simp only [insertLe]
    split
    · simp
    · simp only [List.mem_cons, ih]
      tauto

lemma perm_insertLe {α : Type} (le : α → α → Bool) (x : α) :
    ∀ l : List α, List.Perm (insertLe le x l) (x :: l) := by
  intro l
  induction l with
  | nil => simp [insertLe]
  | cons z zs ih =>
    simp only [insertLe]
    split
    · exact List.Perm.refl _
    · exact (ih.cons z).trans (List.Perm.swap x z zs)

lemma perm_sortByLe {α : Type} (le : α → α → Bool) :
    ∀ l : List α, List.Perm (sortByLe le l) l := by
  intro l
  induction l with
  | nil => exact List.Perm.refl _
  | cons x xs ih => exact (perm_insertLe le x (sortByLe le xs)).trans (ih.cons x)

lemma mem_sortByLe {α : Type} (le : α → α → Bool) (y : α) (l : List α) :
    y ∈ sortByLe le l ↔ y ∈ l :=
  (perm_sortByLe le l).mem_iff

end MemLemmas

section NoQuoteLemmas

lemma tokenizeGo_fields_no_quote :
    ∀ (l : JSStr) (cols : List JSStr) (cur : JSStr) (q : Bool),
      (∀ f ∈ cols, '"' ∉ f) → '"' ∉ cur → ∀ f ∈ tokenizeGo cols cur q l, '"' ∉ f := by
  intro l
  induction l with
  | nil =>
    intro cols cur q hcols hcur f hf
    simp only [tokenizeGo] at hf
    rcases List.mem_append.mp hf with h1 | h1
    · exact hcols f h1
    · simp only [List.mem_singleton] at h1
      subst h1
      exact fun hq => hcur (mem_trim hq)
  | cons c cs ih =>
    intro cols cur q hcols hcur f hf
    simp only [tokenizeGo] at hf
    by_cases hc : c = '"'
    · rw [if_pos hc] at hf
      exact ih cols cur (!q) hcols hcur f hf
    · rw [if_neg hc] at hf
      split at hf
      · refine ih (cols ++ [trim cur]) [] q ?_ (by simp) f hf
        intro g hg
        rcases List.mem_append.mp hg with h1 | h1
        · exact hcols g h1
        · simp only [List.mem_singleton] at h1
          subst h1
          exact fun hq => hcur (mem_trim hq)
      · refine ih cols (cur ++ [c]) q hcols ?_ f hf
        intro hq
        rcases List.mem_append.mp hq with h1 | h1
        · exact hcur h1
        · simp only [List.mem_singleton] at h1
          exact hc h1.symm

lemma tokenize_fields_no_quote (l : JSStr) : ∀ f ∈ tokenize l, '"' ∉ f :=
  tokenizeGo_fields_no_quote l [] [] false (by simp) (by simp)

lemma stripQuotes_of_no_quote {s : JSStr} (h : '"' ∉ s) : stripQuotes s = s :=
  List.filter_eq_self.mpr (fun c hc => by
    simp only [ne_eq, decide_eq_true_eq]
    exact fun he => h (he ▸ hc))

lemma no_quote_stripQuotes (s : JSStr) : '"' ∉ stripQuotes s := by
  intro h
  have := List.of_mem_filter h
  simp at this

lemma no_quote_getD {l : List JSStr} (h : ∀ f ∈ l, '"' ∉ f) (n : Nat) :
    '"' ∉ l.getD n [] := by
  by_cases hn : n < l.length
  · rw [List.getD_eq_getElem l [] hn]
    exact h _ (List.getElem_mem hn)
  · rw [List.getD_eq_default l [] (by omega)]
    simp

lemma lookup_value_mem {ps : List (JSStr × JSStr)} {k v : JSStr}
    (h : ps.lookup k = some v) : v ∈ ps.map Prod.snd := by
  induction ps with
  | nil => cases h
  | cons p ps ih =>
    rw [List.lookup] at h
    cases hkp : (k == p.1) with
    | true =>
      rw [hkp] at h
      simp only [Option.some.injEq] at h
      simp [← h]
    | false =>
      rw [hkp] at h
      simp [ih h]

lemma monthLookup_value_no_quote {k v : JSStr} (h : monthLookup k = some v) :
    '"' ∉ v := by
  unfold monthLookup at h
  cases hlk : months.lookup k with
  | some w =>
    rw [hlk] at h
    dsimp only at h
    simp only [Option.some.injEq] at h
    subst h
    have hv := lookup_value_mem hlk
    fin_cases hv <;> decide
  | none =>
    rw [hlk] at h
    dsimp only at h
    by_cases hk : k ∈ objectProtoKeys
    · rw [if_pos hk] at h
      simp only [Option.some.injEq] at h
      subst h
      fin_cases hk <;> decide
    · rw [if_neg hk] at h
      cases h

lemma mem_padStart2 {c : Char} {s : JSStr} (h : c ∈ padStart2 s) :
    c ∈ s ∨ c = '0' := by
  unfold padStart2 at h
  split at h
  · exact Or.inl h
  · rcases List.mem_append.mp h with h1 | h1
    · exact Or.inr (List.eq_of_mem_replicate h1)
    · exact Or.inl h1

lemma parseEbirdDate_eq_some {s d : JSStr} (h : parseEbirdDate s = some d) :
    (splitOnChar ' ' (trim s)).length = 3 ∧
    ∃ mon, monthLookup ((splitOnChar ' ' (trim s)).getD 1 []) = some mon ∧
      d = (splitOnChar ' ' (trim s)).getD 2 [] ++ '-' :: mon ++ '-' ::
        padStart2 ((splitOnChar ' ' (trim s)).getD 0 []) := by
  simp only [parseEbirdDate] at h
  by_cases h3 : (splitOnChar ' ' (trim s)).length = 3
  · rw [if_neg (by omega)] at h
    cases hm : monthLookup ((splitOnChar ' ' (trim s)).getD 1 []) with
    | none => rw [hm] at h; cases h
    | some mon =>
      rw [hm] at h
      simp only [Option.some.injEq] at h
      exact ⟨h3, mon, rfl, h.symm⟩
  · rw [if_pos h3] at h
    cases h

lemma parseEbirdDate_no_quote {s d : JSStr} (h : parseEbirdDate s = some d)
    (hs : '"' ∉ s) : '"' ∉ d := by
  obtain ⟨h3, mon, hm, hd⟩ := parseEbirdDate_eq_some h
  subst hd
  intro hq
  have hsplit : ∀ f ∈ splitOnChar ' ' (trim s), '"' ∉ f := by
    intro f hf hin
    exact hs (mem_trim (mem_splitOnChar_subset hf hin))
  simp only [List.mem_append, List.mem_cons] at hq
  rcases hq with (h1 | h1 | h1) | h1 | h1
  · exact no_quote_getD hsplit 2 h1
  · cases h1
  · exact monthLookup_value_no_quote hm h1
  · cases h1
  · rcases mem_padStart2 h1 with h5 | h5
    · exact no_quote_getD hsplit 0 h5
    · cases h5

lemma lineToObs_eq_some {raw : JSStr} {o : Obs} (h : lineToObs raw = some o) :
    trim raw ≠ [] ∧ (tokenize (trim raw)).length ≥ 9 ∧
    ∃ d, parseEbirdDate ((tokenize (trim raw)).getD 8 []) = some d ∧
      o = { date := d, sciName := (tokenize (trim raw)).getD 4 [],
            common := (tokenize (trim raw)).getD 3 [],
            location := stripQuotes ((tokenize (trim raw)).getD 6 []),
            region := (tokenize (trim raw)).getD 7 [] } := by
  simp only [lineToObs] at h
  by_cases he : trim raw = []
  · rw [if_pos he] at h; cases h
  · rw [if_neg he] at h
    by_cases h9 : (tokenize (trim raw)).length ≥ 9
    · rw [if_pos h9] at h
      cases hd : parseEbirdDate ((tokenize (trim raw)).getD 8 []) with
      | none => rw [hd] at h; cases h
      | some d =>
        rw [hd] at h
        simp only [Option.some.injEq] at h
        exact ⟨he, h9, d, rfl, h.symm⟩
    · rw [if_neg h9] at h; cases h

end NoQuoteLemmas

/-- C9: the tokenizer never emits a quote character — no field of any
tokenized line contains one, so the extra quote-stripping on the location
column is a no-op, and no field of any output observation contains a
quote. -/
theorem claim_no_quotes_in_output :
    (∀ l : JSStr, ∀ f ∈ tokenize l, '"' ∉ f) ∧
    (∀ l : JSStr, (tokenize l).map stripQuotes = tokenize l) ∧
    (∀ csv : JSStr, ∀ o ∈ parseCSV csv,
      '"' ∉ o.date ∧ '"' ∉ o.sciName ∧ '"' ∉ o.common ∧
      '"' ∉ o.location ∧ '"' ∉ o.region) := by
  refine ⟨tokenize_fields_no_quote, ?_, ?_⟩
  · intro l
    have hmap : List.map stripQuotes (tokenize l) = List.map id (tokenize l) :=
      List.map_congr_left
        (fun f hf => stripQuotes_of_no_quote (tokenize_fields_no_quote l f hf))
    simpa using hmap
  · intro csv o ho
    rw [parseCSV, parseCSVLines, mem_sortByLe] at ho
    obtain ⟨raw, _, hsome⟩ := List.mem_filterMap.mp ho
    obtain ⟨_, _, d, hd, hobs⟩ := lineToObs_eq_some hsome
    have hfields := tokenize_fields_no_quote (trim raw)
    subst hobs
    exact ⟨parseEbirdDate_no_quote hd (no_quote_getD hfields 8),
      no_quote_getD hfields 4, no_quote_getD hfields 3,
      no_quote_stripQuotes _, no_quote_getD hfields 7⟩

/-- Witness for C9 at a concrete CSV whose location field is quoted in the
input: the output record is quote-free. -/
theorem claim_no_quotes_in_output_witness :
    '"' ∉ "Central Park".data ∧
    (tokenize "a,\"Central Park\",c".data).map stripQuotes =
      tokenize "a,\"Central Park\",c".data :=
  ⟨claim_no_quotes_in_output.1 "a,\"Central Park\",c".data "Central Park".data
     (by decide),
   claim_no_quotes_in_output.2.1 "a,\"Central Park\",c".data⟩

/-- A well-formed data row in the sense of the round-trip property: it
tokenizes to at least 9 columns and its column 8 carries a parseable
date. -/
def wellFormedRow (r : JSStr) : Prop :=
  (tokenize (trim r)).length ≥ 9 ∧
  (parseEbirdDate ((tokenize (trim r)).getD 8 [])).isSome

instance (r : JSStr) : Decidable (wellFormedRow r) := by
  unfold wellFormedRow
  infer_instance

/-- The 5-field target record the round-trip claim maps a row to: column 3
as common, column 4 as sciName, column 6 as location, column 7 as region,
and the normalized column 8 as date. -/
def rowObs (r : JSStr) : Obs :=
  { date := (parseEbirdDate ((tokenize (trim r)).getD 8 [])).getD [],
    sciName := (tokenize (trim r)).getD 4 [],
    common := (tokenize (trim r)).getD 3 [],
    location := (tokenize (trim r)).getD 6 [],
    region := (tokenize (trim r)).getD 7 [] }

section RoundTripLemmas

lemma filterMap_eq_map_of_forall {α β : Type} (f : α → Option β) (g : α → β) :
    ∀ l : List α, (∀ x ∈ l, f x = some (g x)) → l.filterMap f = l.map g := by
  intro l
  induction l with
  | nil => intro _; rfl
  | cons x xs ih =>
    intro h
    rw [List.filterMap_cons, h x (List.mem_cons_self x xs), List.map_cons,
      ih (fun y hy => h y (List.mem_cons_of_mem x hy))]

lemma lineToObs_of_wellFormed {r : JSStr} (h : wellFormedRow r) :
    lineToObs r = some (rowObs r) := by
  obtain ⟨h9, hdate⟩ := h
  have hne : trim r ≠ [] := by
    intro he
    rw [he] at h9
    have : (tokenize ([] : JSStr)).length = 1 := by decide
    omega
  obtain ⟨d, hd⟩ := Option.isSome_iff_exists.mp hdate
  have hloc : stripQuotes ((tokenize (trim r)).getD 6 []) =
      (tokenize (trim r)).getD 6 [] :=
    stripQuotes_of_no_quote (no_quote_getD (tokenize_fields_no_quote (trim r)) 6)
  simp only [lineToObs, if_neg hne, if_pos h9, hd, rowObs, hloc, Option.getD_some]

end RoundTripLemmas

/-- C4: an input splitting into a header line and N well-formed data rows
produces exactly N observations, each carrying the five positionally
mapped fields (column 3 as common, 4 as sciName, 6 as location, 7 as
region, normalized column 8 as date) with no field loss; the output is
the sorted permutation of that row-for-row image. -/
theorem claim_roundtrip (csv header : JSStr) (rows : List JSStr)
    (hsplit : splitOnChar '\n' csv = header :: rows)
    (hwf : ∀ r ∈ rows, wellFormedRow r) :
    (parseCSV csv).length = rows.length ∧
    List.Perm (parseCSV csv) (rows.map rowObs) := by
  have hobs : observationsOfLines (header :: rows) = rows.map rowObs := by
    unfold observationsOfLines
    simp only [List.drop_succ_cons, List.drop_zero]
    exact filterMap_eq_map_of_forall lineToObs rowObs rows
      (fun r hr => lineToObs_of_wellFormed (hwf r hr))
  have hperm : List.Perm (parseCSV csv) (rows.map rowObs) := by
    rw [parseCSV, hsplit, parseCSVLines, hobs]
    exact perm_sortByLe sortLe _
  exact ⟨hperm.length_eq.trans (List.length_map rows rowObs), hperm⟩

/-- Witness for C4 on a concrete two-row export: both records survive with
their fields. -/
theorem claim_roundtrip_witness :
    (parseCSV "h\n1,a,b,Bird A,Sci A,,Loc A,US-NY,5 Jan 2024\n2,a,b,Bird B,Sci B,,Loc B,US-VT,2 Mar 2023".data).length = 2 ∧
    List.Perm
      (parseCSV "h\n1,a,b,Bird A,Sci A,,Loc A,US-NY,5 Jan 2024\n2,a,b,Bird B,Sci B,,Loc B,US-VT,2 Mar 2023".data)
      (["1,a,b,Bird A,Sci A,,Loc A,US-NY,5 Jan 2024".data,
        "2,a,b,Bird B,Sci B,,Loc B,US-VT,2 Mar 2023".data].map rowObs) :=
  claim_roundtrip
    "h\n1,a,b,Bird A,Sci A,,Loc A,US-NY,5 Jan 2024\n2,a,b,Bird B,Sci B,,Loc B,US-VT,2 Mar 2023".data
    "h".data
    ["1,a,b,Bird A,Sci A,,Loc A,US-NY,5 Jan 2024".data,
     "2,a,b,Bird B,Sci B,,Loc B,US-VT,2 Mar 2023".data]
    (by decide) (by decide)

section DateContractLemmas

lemma dropWhile_eq_self_of_forall {p : Char → Bool} :
    ∀ {s : List Char}, (∀ c ∈ s, p c = false) → s.dropWhile p = s := by
  intro s h
  cases s with
  | nil => rfl
  | cons c cs =>
    rw [List.dropWhile_cons_of_neg]
    simp [h c (List.mem_cons_self c cs)]

lemma trim_eq_self_of_no_ws {s : JSStr} (h : ∀ c ∈ s, isJsSpace c = false) :
    trim s = s := by
  unfold trim
  rw [dropWhile_eq_self_of_forall h,
    dropWhile_eq_self_of_forall (fun c hc => h c (List.mem_reverse.mp hc)),
    List.reverse_reverse]

lemma trim_concat_of_ends {c d : Char} {mid : JSStr} (hc : isJsSpace c = false)
    (hd : isJsSpace d = false) :
    trim (c :: (mid ++ [d])) = c :: (mid ++ [d]) := by
  unfold trim
  rw [List.dropWhile_cons_of_neg (by simp [hc])]
  rw [show (c :: (mid ++ [d])).reverse = d :: (mid.reverse ++ [c]) from by simp]
  rw [List.dropWhile_cons_of_neg (by simp [hd])]
  simp

lemma isDigit_not_space {c : Char} (h : c.isDigit = true) : isJsSpace c = false := by
  have hb : 48 ≤ c.toNat ∧ c.toNat ≤ 57 := by
    simp [Char.isDigit] at h
    exact h
  simp only [isJsSpace, Bool.or_eq_false_iff, Bool.and_eq_false_iff,
    decide_eq_false_iff_not]
  omega

lemma months_key_facts {mon mm : JSStr} (h : (mon, mm) ∈ months) :
    monthLookup mon = some mm ∧ ∀ c ∈ mon, isJsSpace c = false := by
  fin_cases h <;> exact ⟨by decide, by decide⟩

lemma space_not_mem_of_digits {s : JSStr} (h : ∀ c ∈ s, c.isDigit = true) :
    ' ' ∉ s :=
  fun hmem => absurd (h ' ' hmem) (by decide)

lemma space_not_mem_of_no_ws {s : JSStr} (h : ∀ c ∈ s, isJsSpace c = false) :
    ' ' ∉ s :=
  fun hmem => absurd (h ' ' hmem) (by decide)

end DateContractLemmas

/-- C2 (amended): parseEbirdDate returns the ISO string YYYY-MM-DD with
the day zero-padded for every input of the literal form day, month
abbreviation and year separated by single spaces with a recognized month;
and it returns null for every string that does not split on the space
character (not: arbitrary whitespace) into exactly 3 parts, or whose
middle part neither is a recognized month abbreviation nor names a
property inherited from Object.prototype (for an inherited name such as
toString the property read is truthy and the code returns a garbage date
string instead of null). -/
theorem claim_date_contract :
    (∀ day mon mm year : JSStr, day ≠ [] → day.length ≤ 2 →
      (∀ c ∈ day, c.isDigit = true) → (mon, mm) ∈ months →
      year.length = 4 → (∀ c ∈ year, c.isDigit = true) →
      parseEbirdDate (day ++ ' ' :: mon ++ ' ' :: year) =
        some (year ++ '-' :: mm ++ '-' :: padStart2 day) ∧
      (padStart2 day).length = 2) ∧
    (∀ s : JSStr, (splitOnChar ' ' (trim s)).length ≠ 3 ∨
      monthLookup ((splitOnChar ' ' (trim s)).getD 1 []) = none →
      parseEbirdDate s = none) := by
  constructor
  · intro day mon mm year hne hlen hday hmon hyear4 hyear
    obtain ⟨hlook, hmonws⟩ := months_key_facts hmon
    obtain ⟨d0, dayrest, hday0⟩ : ∃ d0 dayrest, day = d0 :: dayrest := by
      cases day with
      | nil => exact absurd rfl hne
      | cons d0 dayrest => exact ⟨d0, dayrest, rfl⟩
    obtain ⟨yin, ylast, hysplit⟩ : ∃ yin ylast, year = yin ++ [ylast] := by
      rcases List.eq_nil_or_concat year with h | ⟨yin, ylast, h⟩
      · rw [h] at hyear4; cases hyear4
      · exact ⟨yin, ylast, by simpa [List.concat_eq_append] using h⟩
    have hshape : day ++ ' ' :: mon ++ ' ' :: year =
        d0 :: ((dayrest ++ ' ' :: mon ++ ' ' :: yin) ++ [ylast]) := by
      rw [hday0, hysplit]
      simp [List.append_assoc]
    have htrim : trim (day ++ ' ' :: mon ++ ' ' :: year) =
        day ++ ' ' :: mon ++ ' ' :: year := by
      rw [hshape]
      exact trim_concat_of_ends
        (isDigit_not_space (hday d0 (hday0 ▸ List.mem_cons_self d0 dayrest)))
        (isDigit_not_space (hyear ylast
          (hysplit ▸ List.mem_append_right yin (List.mem_singleton.mpr rfl))))
    have hsplit : splitOnChar ' ' (day ++ ' ' :: mon ++ ' ' :: year) =
        [day, mon, year] := by
      rw [show day ++ ' ' :: mon ++ ' ' :: year =
            day ++ (' ' :: (mon ++ (' ' :: year))) from by simp]
      rw [splitOnChar_append (mon ++ (' ' :: year)) (space_not_mem_of_digits hday),
        splitOnChar_append year (space_not_mem_of_no_ws hmonws),
        splitOnChar_not_mem (space_not_mem_of_digits hyear)]
    constructor
    · simp only [parseEbirdDate, htrim, hsplit]
      simp [hlook]
    · unfold padStart2
      split
      · next hge => omega
      · next hlt =>
        have hpos : 0 < day.length := List.length_pos.mpr hne
        have h1 : day.length = 1 := by omega
        simp [h1]
  · intro s hs
    rcases hs with h3 | hm
    · simp [parseEbirdDate, h3]
    · by_cases h3 : (splitOnChar ' ' (trim s)).length = 3
      · have hlt1 : 1 < (splitOnChar ' ' (trim s)).length := by omega
        have hm' : monthLookup ((splitOnChar ' ' (trim s))[1]) = none := by
          rwa [List.getD_eq_getElem _ _ hlt1] at hm
        simp [parseEbirdDate, h3, hm']
      · simp [parseEbirdDate, h3]

/-- Witness for C2 at the spec's examples: a one-digit and a two-digit
day, and two rejected strings. -/
theorem claim_date_contract_witness :
    parseEbirdDate "5 Jan 2024".data = some "2024-01-05".data ∧
    parseEbirdDate "15 Dec 2023".data = some "2023-12-15".data ∧
    parseEbirdDate "2024".data = none ∧
    parseEbirdDate "5 Foo 2024".data = none := by
  refine ⟨?_, ?_, ?_, ?_⟩
  · have h := (claim_date_contract.1 "5".data "Jan".data "01".data "2024".data
      (by decide) (by decide) (by decide) (by decide) (by decide) (by decide)).1
    rw [show "5 Jan 2024".data = "5".data ++ ' ' :: "Jan".data ++ ' ' :: "2024".data
      from by decide] at *
    rw [h]
    decide
  · have h := (claim_date_contract.1 "15".data "Dec".data "12".data "2023".data
      (by decide) (by decide) (by decide) (by decide) (by decide) (by decide)).1
    rw [show "15 Dec 2023".data = "15".data ++ ' ' :: "Dec".data ++ ' ' :: "2023".data
      from by decide] at *
    rw [h]
    decide
  · exact claim_date_contract.2 "2024".data (by decide)
  · exact claim_date_contract.2 "5 Foo 2024".data (by decide)

/-- Counterexample to C2 as stated, twice over: a tab inside the first
token makes the string split into 4 whitespace-separated parts, for which
the claim demands null, yet the code splits only on the space character,
sees 3 parts and a recognized month, and returns a value; and the month
token toString is none of the twelve recognized abbreviations, for which
the claim also demands null, yet the property read months[parts[1]] walks
the prototype chain, finds the truthy inherited Object.prototype.toString,
and the code interpolates it into a non-null result. -/
theorem claim_date_contract_counterexample :
    ((wsTokens (trim "a\tb Jan 2024".data)).length ≠ 3 ∧
      parseEbirdDate "a\tb Jan 2024".data = some "2024-01-a\tb".data) ∧
    parseEbirdDate "5 toString 2024".data =
      some "2024-function toString() \x7b [native code] \x7d-05".data := by
  exact ⟨⟨by decide, by decide⟩, by decide⟩

section OrderingLemmas

lemma eq_then (o : Ordering) : Ordering.eq.then o = o := rfl

lemma then_eq (o : Ordering) : o.then Ordering.eq = o := by cases o <;> rfl

lemma lt_then (o : Ordering) : Ordering.lt.then o = Ordering.lt := rfl

lemma gt_then (o : Ordering) : Ordering.gt.then o = Ordering.gt := rfl

lemma compare_ne_gt_iff_le {a b : Nat} : compare a b ≠ Ordering.gt ↔ a ≤ b := by
  rcases Nat.lt_trichotomy a b with h | h | h
  · simp only [Nat.compare_eq_lt.mpr h]
    simp
    omega
  · simp only [Nat.compare_eq_eq.mpr h]
    simp
    omega
  · simp only [Nat.compare_eq_gt.mpr h]
    simp
    omega

lemma then_compare_mul (B : Nat) {a a' b b' : Nat} (hb : b < B) (hb' : b' < B) :
    (compare a a').then (compare b b') = compare (B * a + b) (B * a' + b') := by
  rcases Nat.lt_trichotomy a a' with h | h | h
  · have hstep : B * a + B = B * (a + 1) := by ring
    have hle : B * (a + 1) ≤ B * a' := Nat.mul_le_mul_left B h
    have hlt : B * a + b < B * a' + b' := by
      have h1 : B * a + b < B * a + B := Nat.add_lt_add_left hb (B * a)
      omega
    rw [Nat.compare_eq_lt.mpr h, Nat.compare_eq_lt.mpr hlt, lt_then]
  · subst h
    rw [Nat.compare_eq_eq.mpr rfl, eq_then]
    rcases Nat.lt_trichotomy b b' with h1 | h1 | h1
    · rw [Nat.compare_eq_lt.mpr h1,
        Nat.compare_eq_lt.mpr (Nat.add_lt_add_left h1 (B * a))]
    · subst h1
      rw [Nat.compare_eq_eq.mpr rfl, Nat.compare_eq_eq.mpr rfl]
    · rw [Nat.compare_eq_gt.mpr h1,
        Nat.compare_eq_gt.mpr (Nat.add_lt_add_left h1 (B * a))]
  · have hstep : B * a' + B = B * (a' + 1) := by ring
    have hle : B * (a' + 1) ≤ B * a := Nat.mul_le_mul_left B h
    have hlt : B * a' + b' < B * a + b := by
      have h1 : B * a' + b' < B * a' + B := Nat.add_lt_add_left hb' (B * a')
      omega
    rw [Nat.compare_eq_gt.mpr h, Nat.compare_eq_gt.mpr hlt, gt_then]

lemma charCmp_digit {c d : Char} (hc : isAsciiDigit c = true)
    (hd : isAsciiDigit d = true) :
    charCmp c d = compare (c.toNat - 48) (d.toNat - 48) := by
  have hc' : 48 ≤ c.toNat := by
    simp only [isAsciiDigit, Bool.and_eq_true, decide_eq_true_eq] at hc
    exact hc.1
  have hd' : 48 ≤ d.toNat := by
    simp only [isAsciiDigit, Bool.and_eq_true, decide_eq_true_eq] at hd
    exact hd.1
  unfold charCmp
  rcases Nat.lt_trichotomy c.toNat d.toNat with h | h | h
  · rw [Nat.compare_eq_lt.mpr h, Nat.compare_eq_lt.mpr (by omega)]
  · rw [Nat.compare_eq_eq.mpr h, Nat.compare_eq_eq.mpr (by omega)]
  · rw [Nat.compare_eq_gt.mpr h, Nat.compare_eq_gt.mpr (by omega)]

lemma digit_sub_lt_10 {c : Char} (h : isAsciiDigit c = true) : c.toNat - 48 < 10 := by
  simp only [isAsciiDigit, Bool.and_eq_true, decide_eq_true_eq] at h
  omega

lemma daysInMonth_le_31 (y m : Nat) : daysInMonth y m ≤ 31 := by
  unfold daysInMonth
  split
  · split <;> omega
  · split <;> omega

lemma jsDateKey_inv {s : JSStr} {x : Nat} (h : jsDateKey s = some x) :
    ∃ a1 a2 a3 a4 b1 b2 c1 c2 : Char,
      s = [a1, a2, a3, a4, '-', b1, b2, '-', c1, c2] ∧
      isAsciiDigit a1 = true ∧ isAsciiDigit a2 = true ∧ isAsciiDigit a3 = true ∧
      isAsciiDigit a4 = true ∧ isAsciiDigit b1 = true ∧ isAsciiDigit b2 = true ∧
      isAsciiDigit c1 = true ∧ isAsciiDigit c2 = true ∧
      1 ≤ 10 * (b1.toNat - 48) + (b2.toNat - 48) ∧
      10 * (b1.toNat - 48) + (b2.toNat - 48) ≤ 12 ∧
      1 ≤ 10 * (c1.toNat - 48) + (c2.toNat - 48) ∧
      10 * (c1.toNat - 48) + (c2.toNat - 48) ≤ 31 ∧
      x = packDate
        (1000 * (a1.toNat - 48) + 100 * (a2.toNat - 48) +
          10 * (a3.toNat - 48) + (a4.toNat - 48))
        (10 * (b1.toNat - 48) + (b2.toNat - 48))
        (10 * (c1.toNat - 48) + (c2.toNat - 48)) := by
  unfold jsDateKey at h
  split at h
  · next a1 a2 a3 a4 h1 b1 b2 h2 c1 c2 =>
    split at h
    · next hdig =>
      dsimp only at h
      split at h
      · next hrange =>
        simp only [Option.some.injEq] at h
        obtain ⟨hd1, hd2, hd3, hd4, hh1, hd5, hd6, hh2, hd7, hd8⟩ := hdig
        obtain ⟨hm1, hm2, hdd1, hdd2⟩ := hrange
        subst hh1
        subst hh2
        exact ⟨a1, a2, a3, a4, b1, b2, c1, c2, rfl, hd1, hd2, hd3, hd4,
          hd5, hd6, hd7, hd8, hm1, hm2, hdd1,
          le_trans hdd2 (daysInMonth_le_31 _ _), h.symm⟩
      · cases h
    · cases h
  · cases h

end OrderingLemmas

section LexBridge

lemma compare_chain8 (A1 A2 A3 A4 B1 B2 C1 C2 E1 E2 E3 E4 F1 F2 G1 G2 : Nat)
    (hA1 : A1 < 10) (hA2 : A2 < 10) (hA3 : A3 < 10) (hA4 : A4 < 10)
    (hB1 : B1 < 10) (hB2 : B2 < 10) (hC1 : C1 < 10) (hC2 : C2 < 10)
    (hE1 : E1 < 10) (hE2 : E2 < 10) (hE3 : E3 < 10) (hE4 : E4 < 10)
    (hF1 : F1 < 10) (hF2 : F2 < 10) (hG1 : G1 < 10) (hG2 : G2 < 10) :
    (compare A1 E1).then ((compare A2 E2).then ((compare A3 E3).then
      ((compare A4 E4).then ((compare B1 F1).then ((compare B2 F2).then
      ((compare C1 G1).then (compare C2 G2))))))) =
    compare
      (10000000 * A1 + 1000000 * A2 + 100000 * A3 + 10000 * A4 +
        1000 * B1 + 100 * B2 + 10 * C1 + C2)
      (10000000 * E1 + 1000000 * E2 + 100000 * E3 + 10000 * E4 +
        1000 * F1 + 100 * F2 + 10 * G1 + G2) := by
  rw [then_compare_mul 10 hC2 hG2]
  rw [then_compare_mul 100 (by omega) (by omega)]
  rw [then_compare_mul 1000 (by omega) (by omega)]
  rw [then_compare_mul 10000 (by omega) (by omega)]
  rw [then_compare_mul 100000 (by omega) (by omega)]
  rw [then_compare_mul 1000000 (by omega) (by omega)]
  rw [then_compare_mul 10000000 (by omega) (by omega)]
  congr 1 <;> ring

lemma compare_pack_agree (A1 A2 A3 A4 B1 B2 C1 C2 E1 E2 E3 E4 F1 F2 G1 G2 : Nat)
    (hA1 : A1 < 10) (hA2 : A2 < 10) (hA3 : A3 < 10) (hA4 : A4 < 10)
    (hB1 : B1 < 10) (hB2 : B2 < 10) (hC1 : C1 < 10) (hC2 : C2 < 10)
    (hE1 : E1 < 10) (hE2 : E2 < 10) (hE3 : E3 < 10) (hE4 : E4 < 10)
    (hF1 : F1 < 10) (hF2 : F2 < 10) (hG1 : G1 < 10) (hG2 : G2 < 10)
    (hM : 10 * B1 + B2 ≤ 12) (hN : 10 * F1 + F2 ≤ 12)
    (hD : 10 * C1 + C2 ≤ 31) (hG : 10 * G1 + G2 ≤ 31) :
    compare
      (10000000 * A1 + 1000000 * A2 + 100000 * A3 + 10000 * A4 +
        1000 * B1 + 100 * B2 + 10 * C1 + C2)
      (10000000 * E1 + 1000000 * E2 + 100000 * E3 + 10000 * E4 +
        1000 * F1 + 100 * F2 + 10 * G1 + G2) =
    compare
      (packDate (1000 * A1 + 100 * A2 + 10 * A3 + A4) (10 * B1 + B2) (10 * C1 + C2))
      (packDate (1000 * E1 + 100 * E2 + 10 * E3 + E4) (10 * F1 + F2) (10 * G1 + G2)) := by
  unfold packDate
  rcases Nat.lt_trichotomy
    (10000000 * A1 + 1000000 * A2 + 100000 * A3 + 10000 * A4 +
      1000 * B1 + 100 * B2 + 10 * C1 + C2)
    (10000000 * E1 + 1000000 * E2 + 100000 * E3 + 10000 * E4 +
      1000 * F1 + 100 * F2 + 10 * G1 + G2) with h | h | h
  · rw [Nat.compare_eq_lt.mpr h, Nat.compare_eq_lt.mpr (by omega)]
  · rw [Nat.compare_eq_eq.mpr h, Nat.compare_eq_eq.mpr (by omega)]
  · rw [Nat.compare_eq_gt.mpr h, Nat.compare_eq_gt.mpr (by omega)]

lemma lexCmp_eq_compare_key {s t : JSStr} {x y : Nat}
    (hs : jsDateKey s = some x) (ht : jsDateKey t = some y) :
    lexCmp s t = compare x y := by
  obtain ⟨a1, a2, a3, a4, b1, b2, c1, c2, hse, ha1, ha2, ha3, ha4, hb1, hb2,
    hc1, hc2, hmlo, hmhi, hdlo, hdhi, hxe⟩ := jsDateKey_inv hs
  obtain ⟨e1, e2, e3, e4, f1, f2, g1, g2, hte, he1, he2, he3, he4, hf1, hf2,
    hg1, hg2, hnlo, hnhi, helo, hehi, hye⟩ := jsDateKey_inv ht
  subst hse
  subst hte
  subst hxe
  subst hye
  simp only [lexCmp]
  rw [charCmp_digit ha1 he1, charCmp_digit ha2 he2, charCmp_digit ha3 he3,
    charCmp_digit ha4 he4, charCmp_digit hb1 hf1, charCmp_digit hb2 hf2,
    charCmp_digit hc1 hg1, charCmp_digit hc2 hg2]
  simp only [show charCmp '-' '-' = Ordering.eq from by decide, eq_then, then_eq]
  rw [compare_chain8 (a1.toNat - 48) (a2.toNat - 48) (a3.toNat - 48)
    (a4.toNat - 48) (b1.toNat - 48) (b2.toNat - 48) (c1.toNat - 48)
    (c2.toNat - 48) (e1.toNat - 48) (e2.toNat - 48) (e3.toNat - 48)
    (e4.toNat - 48) (f1.toNat - 48) (f2.toNat - 48) (g1.toNat - 48)
    (g2.toNat - 48) (digit_sub_lt_10 ha1) (digit_sub_lt_10 ha2)
    (digit_sub_lt_10 ha3) (digit_sub_lt_10 ha4) (digit_sub_lt_10 hb1)
    (digit_sub_lt_10 hb2) (digit_sub_lt_10 hc1) (digit_sub_lt_10 hc2)
    (digit_sub_lt_10 he1) (digit_sub_lt_10 he2) (digit_sub_lt_10 he3)
    (digit_sub_lt_10 he4) (digit_sub_lt_10 hf1) (digit_sub_lt_10 hf2)
    (digit_sub_lt_10 hg1) (digit_sub_lt_10 hg2)]
  exact compare_pack_agree _ _ _ _ _ _ _ _ _ _ _ _ _ _ _ _
    (digit_sub_lt_10 ha1) (digit_sub_lt_10 ha2) (digit_sub_lt_10 ha3)
    (digit_sub_lt_10 ha4) (digit_sub_lt_10 hb1) (digit_sub_lt_10 hb2)
    (digit_sub_lt_10 hc1) (digit_sub_lt_10 hc2) (digit_sub_lt_10 he1)
    (digit_sub_lt_10 he2) (digit_sub_lt_10 he3) (digit_sub_lt_10 he4)
    (digit_sub_lt_10 hf1) (digit_sub_lt_10 hf2) (digit_sub_lt_10 hg1)
    (digit_sub_lt_10 hg2) hmhi hnhi hdhi hehi

end LexBridge

section SortLemmas

lemma sortLe_total (a b : Obs) : sortLe a b = true ∨ sortLe b a = true := by
  unfold sortLe jsDateCmp
  cases hx : jsDateKey a.date with
  | none => cases hy : jsDateKey b.date <;> simp
  | some x =>
    cases hy : jsDateKey b.date with
    | none => simp
    | some y =>
      simp only [decide_eq_true_eq]
      omega

lemma sortLe_trans_valid {a b c : Obs} (ha : (jsDateKey a.date).isSome = true)
    (hb : (jsDateKey b.date).isSome = true) (hc : (jsDateKey c.date).isSome = true)
    (h1 : sortLe a b = true) (h2 : sortLe b c = true) : sortLe a c = true := by
  rcases Option.isSome_iff_exists.mp ha with ⟨x, hx⟩
  rcases Option.isSome_iff_exists.mp hb with ⟨y, hy⟩
  rcases Option.isSome_iff_exists.mp hc with ⟨z, hz⟩
  unfold sortLe jsDateCmp at h1 h2 ⊢
  rw [hx, hy] at h1
  rw [hy, hz] at h2
  rw [hx, hz]
  simp only [decide_eq_true_eq] at h1 h2 ⊢
  omega

lemma sortLe_of_date_eq {a b : Obs} (h : a.date = b.date) : sortLe a b = true := by
  unfold sortLe jsDateCmp
  rw [h]
  cases jsDateKey b.date with
  | none => simp
  | some x => simp

lemma lexLe_of_sortLe {a b : Obs} (ha : (jsDateKey a.date).isSome = true)
    (hb : (jsDateKey b.date).isSome = true) (h : sortLe a b = true) :
    lexLe a.date b.date = true := by
  rcases Option.isSome_iff_exists.mp ha with ⟨x, hx⟩
  rcases Option.isSome_iff_exists.mp hb with ⟨y, hy⟩
  have hxy : x ≤ y := by
    unfold sortLe jsDateCmp at h
    rw [hx, hy] at h
    simp only [decide_eq_true_eq] at h
    omega
  unfold lexLe
  rw [lexCmp_eq_compare_key hx hy]
  simp only [ne_eq, decide_eq_true_eq]
  exact compare_ne_gt_iff_le.mpr hxy

lemma pairwise_insertLe {α : Type} {le : α → α → Bool} {P : α → Prop}
    (htot : ∀ a b, le a b = true ∨ le b a = true)
    (htrans : ∀ a b c, P a → P b → P c →
      le a b = true → le b c = true → le a c = true)
    {x : α} (hx : P x) :
    ∀ {l : List α}, (∀ y ∈ l, P y) → l.Pairwise (fun a b => le a b = true) →
      (insertLe le x l).Pairwise (fun a b => le a b = true) := by
  intro l
  induction l with
  | nil =>
    intro _ _
    simp [insertLe]
  | cons y ys ih =>
    intro hl hp
    simp only [insertLe]
    split
    · next hxy =>
      refine List.Pairwise.cons ?_ hp
      intro z hz
      rcases List.mem_cons.mp hz with h1 | h1
      · subst h1; exact hxy
      · exact htrans x y z hx (hl y (List.mem_cons_self y ys))
          (hl z (List.mem_cons_of_mem y h1)) hxy
          ((List.pairwise_cons.mp hp).1 z h1)
    · next hxy =>
      have hyx : le y x = true := by
        rcases htot x y with h | h
        · exact absurd h hxy
        · exact h
      refine List.Pairwise.cons ?_
        (ih (fun z hz => hl z (List.mem_cons_of_mem y hz))
          (List.pairwise_cons.mp hp).2)
      intro z hz
      rcases (mem_insertLe le x z ys).mp hz with h1 | h1
      · subst h1; exact hyx
      · exact (List.pairwise_cons.mp hp).1 z h1

lemma pairwise_sortByLe {α : Type} {le : α → α → Bool} {P : α → Prop}
    (htot : ∀ a b, le a b = true ∨ le b a = true)
    (htrans : ∀ a b c, P a → P b → P c →
      le a b = true → le b c = true → le a c = true) :
    ∀ {l : List α}, (∀ y ∈ l, P y) →
      (sortByLe le l).Pairwise (fun a b => le a b = true) := by
  intro l
  induction l with
  | nil => intro _; simp [sortByLe]
  | cons x xs ih =>
    intro hl
    simp only [sortByLe]
    exact pairwise_insertLe htot htrans (hl x (List.mem_cons_self x xs))
      (fun y hy => hl y (List.mem_cons_of_mem x
        ((mem_sortByLe le y xs).mp hy)))
      (ih (fun y hy => hl y (List.mem_cons_of_mem x hy)))

lemma sortedByDate_of_pairwise :
    ∀ {l : List Obs}, (∀ o ∈ l, (jsDateKey o.date).isSome = true) →
      l.Pairwise (fun a b => sortLe a b = true) → sortedByDate l = true := by
  intro l
  induction l with
  | nil => intro _ _; rfl
  | cons a rest ih =>
    intro hv hp
    cases rest with
    | nil => rfl
    | cons b r =>
      simp only [sortedByDate, Bool.and_eq_true]
      refine ⟨lexLe_of_sortLe (hv a (List.mem_cons_self a _))
        (hv b (List.mem_cons_of_mem a (List.mem_cons_self b r)))
        ((List.pairwise_cons.mp hp).1 b (List.mem_cons_self b r)), ?_⟩
      exact ih (fun o ho => hv o (List.mem_cons_of_mem a ho))
        (List.pairwise_cons.mp hp).2

lemma filter_insertLe {α : Type} (le : α → α → Bool) (p : α → Bool)
    (htie : ∀ u v, p u = true → p v = true → le u v = true) (x : α) :
    ∀ l : List α, List.filter p (insertLe le x l) =
      if p x then x :: List.filter p l else List.filter p l := by
  intro l
  induction l with
  | nil => cases hpx : p x <;> simp [insertLe, List.filter, hpx]
  | cons y ys ih =>
    simp only [insertLe]
    split
    · next hxy => cases hpx : p x <;> simp [List.filter_cons, hpx]
    · next hxy =>
      cases hpx : p x with
      | false =>
        simp only [List.filter_cons]
        rw [ih]
        simp [hpx]
      | true =>
        have hpy : p y = false := by
          cases hpy : p y with
          | false => rfl
          | true => exact absurd (htie x y hpx hpy) hxy
        simp only [List.filter_cons, hpy]
        rw [ih]
        simp [hpx, hpy]

lemma filter_sortByLe {α : Type} (le : α → α → Bool) (p : α → Bool)
    (htie : ∀ u v, p u = true → p v = true → le u v = true) :
    ∀ l : List α, List.filter p (sortByLe le l) = List.filter p l := by
  intro l
  induction l with
  | nil => rfl
  | cons x xs ih =>
    simp only [sortByLe]
    rw [filter_insertLe le p htie x]
    cases hpx : p x <;> simp [List.filter_cons, hpx, ih]

end SortLemmas

/-- C1 (amended): when every observation the parser builds carries a
valid calendar date of the exact YYYY-MM-DD shape (so every new Date the
comparator takes has a definite time value, the comparator is a
consistent comparison function, and ECMAScript pins the sort's output),
parseCSV's output is sorted ascending by the ISO date string under
lexical comparison, and records with equal date strings retain their
input (stable) order, stated as: filtering the output by any date gives
exactly the input-order filtration. -/
theorem claim_sort_invariant (csvContent : JSStr)
    (hv : ∀ o ∈ rawObservations csvContent, (jsDateKey o.date).isSome = true) :
    sortedByDate (parseCSV csvContent) = true ∧
    ∀ d : JSStr, (parseCSV csvContent).filter (fun o => o.date == d) =
      (rawObservations csvContent).filter (fun o => o.date == d) := by
  have hpc : parseCSV csvContent = sortByLe sortLe (rawObservations csvContent) :=
    rfl
  constructor
  · rw [hpc]
    apply sortedByDate_of_pairwise
    · intro o ho
      exact hv o ((mem_sortByLe sortLe o _).mp ho)
    · exact pairwise_sortByLe sortLe_total
        (fun a b c ha hb hc h1 h2 => sortLe_trans_valid ha hb hc h1 h2) hv
  · intro d
    rw [hpc]
    apply filter_sortByLe
    intro u v hu hv'
    apply sortLe_of_date_eq
    have h1 : u.date = d := by simpa using hu
    have h2 : v.date = d := by simpa using hv'
    rw [h1, h2]

/-- Counterexample to C1 as stated: a row whose date normalizes to the
non-calendar string 2024-02-30 makes new Date return an Invalid Date, the
comparator returns NaN (treated as 0 by the sort), and the later row with
the lexically smaller date 2023-01-01 stays behind it: the output is not
sorted ascending by lexical date comparison.  (With such a row present
the comparator is inconsistent, so ECMAScript also withdraws every
ordering guarantee, stability included; hence the amended claim restricts
both clauses to inputs whose dates are all valid.) -/
theorem claim_sort_counterexample :
    (parseCSV ("h\n1,a,b,Bird A,Sci A,,Loc,US,30 Feb 2024\n2,a,b,Bird B,Sci B,,Loc,US,1 Jan 2023".data)).map
        Obs.date = ["2024-02-30".data, "2023-01-01".data] ∧
    sortedByDate
      (parseCSV ("h\n1,a,b,Bird A,Sci A,,Loc,US,30 Feb 2024\n2,a,b,Bird B,Sci B,,Loc,US,1 Jan 2023".data)) =
      false ∧
    lexLe "2023-01-01".data "2024-02-30".data = true :=
  ⟨by decide, by decide, by decide⟩

/-- Witness for C1 at a concrete export with valid dates, including a
duplicated date to exercise the stability clause. -/
theorem claim_sort_invariant_witness :
    sortedByDate
      (parseCSV ("h\n1,a,b,B1,S1,,L,US,2 Mar 2024\n2,a,b,B2,S2,,L,US,1 Jan 2024\n3,a,b,B3,S3,,L,US,5 Jan 2024\n4,a,b,B4,S4,,L,US,1 Jan 2024".data)) =
      true ∧
    (parseCSV ("h\n1,a,b,B1,S1,,L,US,2 Mar 2024\n2,a,b,B2,S2,,L,US,1 Jan 2024\n3,a,b,B3,S3,,L,US,5 Jan 2024\n4,a,b,B4,S4,,L,US,1 Jan 2024".data)).filter
        (fun o => o.date == "2024-01-01".data) =
      (rawObservations ("h\n1,a,b,B1,S1,,L,US,2 Mar 2024\n2,a,b,B2,S2,,L,US,1 Jan 2024\n3,a,b,B3,S3,,L,US,5 Jan 2024\n4,a,b,B4,S4,,L,US,1 Jan 2024".data)).filter
        (fun o => o.date == "2024-01-01".data) :=
  ⟨(claim_sort_invariant
      ("h\n1,a,b,B1,S1,,L,US,2 Mar 2024\n2,a,b,B2,S2,,L,US,1 Jan 2024\n3,a,b,B3,S3,,L,US,5 Jan 2024\n4,a,b,B4,S4,,L,US,1 Jan 2024".data)
      (by decide)).1,
   (claim_sort_invariant
      ("h\n1,a,b,B1,S1,,L,US,2 Mar 2024\n2,a,b,B2,S2,,L,US,1 Jan 2024\n3,a,b,B3,S3,,L,US,5 Jan 2024\n4,a,b,B4,S4,,L,US,1 Jan 2024".data)
      (by decide)).2
    "2024-01-01".data⟩

end BirdHub
